import Mathlib

/-!
Shallow embedding of the `optimal-musical-fingering` core:

* `src/backend/src/positions/neck_position.py` — the `NeckPosition` class
  (placements/fingers lists, sorting, shifting, barre detection,
  full-position expansion);
* `src/backend/src/utils/note2num.py` and `num2note.py` — note-name/number
  conversions.

Python integers are embedded as `Int`.  Python's floor division `//` and
modulo `%` by the positive constants `100` and `12` agree with Lean's `Int`
division `/` (`Int.ediv`) and `%` (`Int.emod`), which for a positive divisor
round toward negative infinity and return a non-negative remainder, exactly
as Python does.  Python's `sorted` with a key function is a stable merge
sort; it is embedded via `List.mergeSort` with a boolean comparison that is
non-strict on the key (so ties keep their original order), and
`reverse=True` is embedded by flipping the comparison (Python's `reverse`
keeps the order of ties as well).  Fallible operations (indexing errors,
`max` of an empty sequence, unpacking an empty `zip`, `ValueError`s) are
embedded with `Option`/`Except` results.
-/

structure NeckPosition where
  placements : List Int
  fingers : List Int
  id : Option Int
deriving DecidableEq

namespace NeckPosition

/-- `self.strings` property: `[note // 100 for note in self.placements]`. -/
def strings (pos : NeckPosition) : List Int :=
  pos.placements.map (fun note => note / 100)

/-- `self.frets` property: `[note % 100 for note in self.placements]`. -/
def frets (pos : NeckPosition) : List Int :=
  pos.placements.map (fun note => note % 100)

/-- The comparison Python's `sorted(..., key=key, reverse=reverse)` sorts by:
non-strict on the key, flipped when `reverse` is set. -/
def keyLe (key : Int × Int → Int) (reverse : Bool) (a b : Int × Int) : Bool :=
  if reverse then decide (key b ≤ key a) else decide (key a ≤ key b)

/-- Python's `sorted(pairs, key=key, reverse=reverse)`: a stable merge sort. -/
def pySortPairs (pairs : List (Int × Int)) (key : Int × Int → Int)
    (reverse : Bool) : List (Int × Int) :=
  pairs.mergeSort (keyLe key reverse)

/-- `sort_by_string`: sorts the zipped (placement, finger) pairs with key
`x[0]` (the raw placement).  Unpacking `zip(*...)` of an empty pair list
raises, hence `none` on an empty zip. -/
def sort_by_string (pos : NeckPosition) (reverse : Bool) : Option NeckPosition :=
  let pairs := pos.placements.zip pos.fingers
  if pairs = [] then none
  else
    let sortedPairs := pySortPairs pairs (fun x => x.1) reverse
    some ⟨sortedPairs.map Prod.fst, sortedPairs.map Prod.snd, pos.id⟩

/-- `sort_by_fret`: key `x[0] % 100`, ascending. -/
def sort_by_fret (pos : NeckPosition) : Option NeckPosition :=
  let pairs := pos.placements.zip pos.fingers
  if pairs = [] then none
  else
    let sortedPairs := pySortPairs pairs (fun x => x.1 % 100) false
    some ⟨sortedPairs.map Prod.fst, sortedPairs.map Prod.snd, pos.id⟩

/-- `sort_by_finger`: key `x[1]`, ascending. -/
def sort_by_finger (pos : NeckPosition) : Option NeckPosition :=
  let pairs := pos.placements.zip pos.fingers
  if pairs = [] then none
  else
    let sortedPairs := pySortPairs pairs (fun x => x.2) false
    some ⟨sortedPairs.map Prod.fst, sortedPairs.map Prod.snd, pos.id⟩

/-- `convert_strings_frets_to_placements`. -/
def convert_strings_frets_to_placements (strs frs : List Int) : List Int :=
  (strs.zip frs).map (fun sf => sf.1 * 100 + sf.2)

/-- `from_strings_frets` alternative constructor. -/
def from_strings_frets (fingers strs frs : List Int) (posId : Option Int) :
    NeckPosition :=
  ⟨convert_strings_frets_to_placements strs frs, fingers, posId⟩

/-- `add_note`: appends `string*100 + fret` to placements and `finger` to
fingers, in place. -/
def add_note (pos : NeckPosition) (string fret finger : Int) : NeckPosition :=
  ⟨pos.placements ++ [string * 100 + fret], pos.fingers ++ [finger], pos.id⟩

/-- `get_full_position`: one slot per string index `0..num_fingers-1`; a
present string keeps its placement (looked up at the first index of that
string), an absent one gets `-1`.  The result is built with the two-argument
constructor, so its `id` is `None`, and `self.fingers` is passed through
unchanged. -/
def get_full_position (pos : NeckPosition) (numFingers : Nat) : NeckPosition :=
  ⟨(List.range numFingers).map (fun (i : Nat) =>
      if (i : Int) ∈ pos.strings
      then pos.placements.getD (List.indexOf (i : Int) pos.strings) 0
      else -1),
   pos.fingers, none⟩

/-- The loop body of `shift`: `self.fingers[i]` for each index `i` of the
given index list, shifted when positive; `none` on an out-of-range index. -/
def shiftIndices (fingers : List Int) (shiftAmount : Int) :
    List Nat → Option (List Int)
  | [] => some []
  | i :: is =>
    match fingers[i]? with
    | none => none
    | some g =>
      match shiftIndices fingers shiftAmount is with
      | none => none
      | some rest => some ((if 0 < g then g + shiftAmount else g) :: rest)

/-- `shift(self, shift, max_finger)`: early return when `max_finger` occurs
among the fingers or `max(self.fingers) + shift > max_finger`; `max` of an
empty list raises (`none`); otherwise fingers `> 0` are incremented by the
shift amount, iterating over `range(len(self.placements))`. -/
def shift (pos : NeckPosition) (shiftAmount maxFinger : Int) :
    Option NeckPosition :=
  if maxFinger ∈ pos.fingers then some pos
  else
    match pos.fingers.max? with
    | none => none
    | some m =>
      if maxFinger < m + shiftAmount then some pos
      else
        match shiftIndices pos.fingers shiftAmount
            (List.range pos.placements.length) with
        | none => none
        | some newFingers => some ⟨pos.placements, newFingers, pos.id⟩

/-- `is_barre`: some positive finger value repeats, i.e. the positive fingers
are more numerous than their set of distinct values. -/
def is_barre (pos : NeckPosition) : Bool :=
  let nonQuietFingers := pos.fingers.filter (fun finger => decide (0 < finger))
  decide (nonQuietFingers.length ≠ nonQuietFingers.dedup.length)

/-- `copy`: an independent position with the same placements, fingers, id. -/
def copy (pos : NeckPosition) : NeckPosition :=
  ⟨pos.placements, pos.fingers, pos.id⟩

end NeckPosition

/-- Spec-side definition for the refinement claim about `sort_by_string`:
a stable sort of the (placement, finger) pairs by the string component only
(`placement // 100`), descending, written from the spec's words rather than
from the implementation (whose sort key is the raw placement value). -/
def sortByStringComponentSpec (pos : NeckPosition) : Option NeckPosition :=
  let pairs := pos.placements.zip pos.fingers
  if pairs = [] then none
  else
    let sortedPairs := NeckPosition.pySortPairs pairs (fun x => x.1 / 100) true
    some ⟨sortedPairs.map Prod.fst, sortedPairs.map Prod.snd, pos.id⟩

/-! ### Note conversions -/

/-- Error kinds of the note conversions: the explicit `ValueError` for a
number outside `[0,127]`, and the malformed-input failures (`IndexError`,
`KeyError`, `int()` parse error). -/
inductive NoteErr where
  | outOfRange
  | malformed
deriving DecidableEq

instance {ε α : Type} [DecidableEq ε] [DecidableEq α] : DecidableEq (Except ε α) :=
  fun x y =>
    match x, y with
    | .ok a, .ok b =>
      if h : a = b then .isTrue (h ▸ rfl)
      else .isFalse (fun hh => h (Except.ok.inj hh))
    | .error e, .error f =>
      if h : e = f then .isTrue (h ▸ rfl)
      else .isFalse (fun hh => h (Except.error.inj hh))
    | .ok _, .error _ => .isFalse (fun hh => Except.noConfusion hh)
    | .error _, .ok _ => .isFalse (fun hh => Except.noConfusion hh)

/-- The `notes` dict of `note2num`: base pitch-class offsets. -/
def letterOffset (c : Char) : Option Int :=
  if c = 'C' then some 0
  else if c = 'D' then some 2
  else if c = 'E' then some 4
  else if c = 'F' then some 5
  else if c = 'G' then some 7
  else if c = 'A' then some 9
  else if c = 'B' then some 11
  else none

/-- Value of a decimal digit character. -/
def digitVal (c : Char) : Option Nat :=
  if '0' ≤ c ∧ c ≤ '9' then some (c.toNat - '0'.toNat) else none

/-- Accumulating decimal reader; fails at the first non-digit. -/
def digitsValAux : List Char → Nat → Option Nat
  | [], acc => some acc
  | c :: cs, acc =>
    match digitVal c with
    | none => none
    | some d => digitsValAux cs (10 * acc + d)

/-- Python's `int()` on the octave substring: an optional minus sign followed
by at least one decimal digit. -/
def pyInt : List Char → Option Int
  | [] => none
  | '-' :: rest =>
    match rest with
    | [] => none
    | _ => (digitsValAux rest 0).map (fun n => -(n : Int))
  | s => (digitsValAux s 0).map (fun n => (n : Int))

/-- The number `note2num` computes before its range check:
`notes[letter] + 12 * octave + 1*(alt == "#") - 1*(alt == "b")`, with `none`
for any malformed-input failure (too-short string, unknown letter,
unparsable octave). -/
def computeNum (note : List Char) : Option Int :=
  match note with
  | letter :: c1 :: rest =>
    let altOct : Option Char × List Char :=
      if c1 = '#' ∨ c1 = 'b' then (some c1, rest) else (none, c1 :: rest)
    match letterOffset letter, pyInt altOct.2 with
    | some offset, some octave =>
      some (offset + 12 * octave
        + (if altOct.1 = some '#' then 1 else 0)
        - (if altOct.1 = some 'b' then 1 else 0))
    | _, _ => none
  | _ => none

/-- `note2num`: the computed number, guarded by the `[0,127]` range check. -/
def note2num (note : List Char) : Except NoteErr Int :=
  match computeNum note with
  | none => .error .malformed
  | some num => if num < 0 ∨ 127 < num then .error .outOfRange else .ok num

/-- The `notes` table of `num2note` (sharp-preferring spellings). -/
def noteNames : List (List Char) :=
  [['C'], ['C', '#'], ['D'], ['D', '#'], ['E'], ['F'], ['F', '#'],
   ['G'], ['G', '#'], ['A'], ['A', '#'], ['B']]

/-- Decimal digit character. -/
def digitChar (d : Nat) : Char :=
  Char.ofNat (48 + d)

/-- Decimal rendering of a natural number, fuelled (the fuel `n + 1` always
suffices). -/
def natDigitsAux : Nat → Nat → List Char
  | 0, _ => []
  | fuel + 1, n =>
    if n < 10 then [digitChar n]
    else natDigitsAux fuel (n / 10) ++ [digitChar (n % 10)]

/-- Python's `str()` of a non-negative integer. -/
def natDigits (n : Nat) : List Char :=
  natDigitsAux (n + 1) n

/-- `num2note`: range check, then `notes[num % 12] + str(num // 12)`. -/
def num2note (num : Int) : Except NoteErr (List Char) :=
  if num < 0 ∨ 127 < num then .error .outOfRange
  else .ok ((noteNames.getD (num % 12).toNat []) ++ natDigits (num / 12).toNat)

/-! ### Theorems -/

/-- Claim C10: for every `NeckPosition` and every `numFingers`, the position
returned by `get_full_position` has `id = None` (the result is built with the
two-argument constructor, so the input's id is not carried over). -/
theorem C10_get_full_position_id_none :
    ∀ (pos : NeckPosition) (numFingers : Nat),
      (pos.get_full_position numFingers).id = none :=
  fun _ _ => rfl

/-- Claim C5: on the empty `NeckPosition` (placements and fingers both
empty), the three sorts and `shift` all fail, and `shift`'s failure happens
with `maxFinger` not among the (empty) fingers, at the `max` of the empty
sequence. -/
theorem C5_empty_position_operations_fail :
    ∀ (posId : Option Int) (shiftAmount maxFinger : Int) (reverse : Bool),
      NeckPosition.sort_by_string ⟨[], [], posId⟩ reverse = none ∧
      NeckPosition.sort_by_fret ⟨[], [], posId⟩ = none ∧
      NeckPosition.sort_by_finger ⟨[], [], posId⟩ = none ∧
      maxFinger ∉ (NeckPosition.mk [] [] posId).fingers ∧
      (NeckPosition.mk [] [] posId).fingers.max? = none ∧
      NeckPosition.shift ⟨[], [], posId⟩ shiftAmount maxFinger = none := by
  intro posId shiftAmount maxFinger reverse
  exact ⟨rfl, rfl, rfl, List.not_mem_nil maxFinger, rfl, rfl⟩

/-- Claim C9: `is_barre` is true exactly when some finger value greater than
0 occurs at least twice in the fingers list; in particular it holds on
fingers `[2,2,0,0,0,0]` and fails on `[1,2,3,0,0,0]` and `[0,0,0,0,0,0]`. -/
theorem C9_is_barre_iff_duplicate_positive_finger :
    (∀ pos : NeckPosition,
      pos.is_barre = true ↔ ∃ v : Int, 0 < v ∧ 2 ≤ pos.fingers.count v) ∧
    NeckPosition.is_barre ⟨[], [2, 2, 0, 0, 0, 0], none⟩ = true ∧
    NeckPosition.is_barre ⟨[], [1, 2, 3, 0, 0, 0], none⟩ = false ∧
    NeckPosition.is_barre ⟨[], [0, 0, 0, 0, 0, 0], none⟩ = false := by
  refine ⟨?_, by decide, by decide, by decide⟩
  intro pos
  simp only [NeckPosition.is_barre, decide_eq_true_eq]
  set nq := pos.fingers.filter (fun finger => decide (0 < finger)) with hnq
  have hlen : nq.length ≠ nq.dedup.length ↔ ¬ nq.Nodup := by
    constructor
    · intro h hnd
      exact h (by rw [List.dedup_eq_self.2 hnd])
    · intro h hl
      have hd : nq.dedup = nq := (List.dedup_sublist nq).eq_of_length hl.symm
      exact h (hd ▸ List.nodup_dedup nq)
  have hdup : ¬ nq.Nodup ↔ ∃ v, 2 ≤ nq.count v := by
    rw [List.nodup_iff_count_le_one]
    push_neg
    exact ⟨fun ⟨v, hv⟩ => ⟨v, hv⟩, fun ⟨v, hv⟩ => ⟨v, hv⟩⟩
  have hcount : ∀ v : Int, 0 < v → nq.count v = pos.fingers.count v := by
    intro v hv
    exact List.count_filter (by simpa using hv)
  rw [hlen, hdup]
  constructor
  · rintro ⟨v, hv⟩
    have hmem : v ∈ nq := List.count_pos_iff.1 (by omega)
    have hvpos : 0 < v := by simpa using (List.mem_filter.1 hmem).2
    exact ⟨v, hvpos, by rw [← hcount v hvpos]; exact hv⟩
  · rintro ⟨v, hvpos, hv⟩
    exact ⟨v, by rw [hcount v hvpos]; exact hv⟩

/-- The shift loop over indices `range' a n` reads the slice
`(fingers.drop a).take n` and shifts its positive entries. -/
theorem shiftIndices_range' (fingers : List Int) (s : Int) :
    ∀ (n a : Nat), a + n ≤ fingers.length →
      NeckPosition.shiftIndices fingers s (List.range' a n) =
        some (((fingers.drop a).take n).map
          (fun g => if 0 < g then g + s else g))
  | 0, a, _ => by simp [NeckPosition.shiftIndices]
  | n + 1, a, h => by
    have ha : a < fingers.length := by omega
    rw [List.range'_succ]
    simp only [NeckPosition.shiftIndices]
    rw [List.getElem?_eq_getElem ha,
      shiftIndices_range' fingers s n (a + 1) (by omega),
      List.drop_eq_getElem_cons ha, List.take_succ_cons, List.map_cons]

/-- Over `range fingers.length` the shift loop shifts every positive entry of
`fingers` and keeps the rest. -/
theorem shiftIndices_range (fingers : List Int) (s : Int) :
    NeckPosition.shiftIndices fingers s (List.range fingers.length) =
      some (fingers.map (fun g => if 0 < g then g + s else g)) := by
  rw [List.range_eq_range']
  rw [shiftIndices_range' fingers s fingers.length 0 (by omega)]
  simp

/-- Claim C2: `get_full_position numFingers` produces exactly `numFingers`
placements; entry `i` is the placement at the first index whose string is `i`
when string `i` is present, and `-1` otherwise; the fingers come through
unchanged in their original order and length. -/
theorem C2_get_full_position_spec :
    ∀ (pos : NeckPosition) (numFingers : Nat),
      (pos.get_full_position numFingers).placements.length = numFingers ∧
      (pos.get_full_position numFingers).fingers = pos.fingers ∧
      (∀ i : Nat, i < numFingers →
        ((i : Int) ∈ pos.strings ∧
          ∃ j : Nat, pos.strings[j]? = some (i : Int) ∧
            (∀ k : Nat, k < j → pos.strings[k]? ≠ some (i : Int)) ∧
            (pos.get_full_position numFingers).placements[i]? =
              pos.placements[j]?) ∨
        ((i : Int) ∉ pos.strings ∧
          (pos.get_full_position numFingers).placements[i]? = some (-1))) := by
  intro pos numFingers
  have hentry : ∀ i : Nat, i < numFingers →
      (pos.get_full_position numFingers).placements[i]? =
        some (if (i : Int) ∈ pos.strings
          then pos.placements.getD (List.indexOf (i : Int) pos.strings) 0
          else -1) := by
    intro i hi
    simp only [NeckPosition.get_full_position, List.getElem?_map,
      List.getElem?_range hi, Option.map_some']
  refine ⟨?_, rfl, ?_⟩
  · simp only [NeckPosition.get_full_position, List.length_map,
      List.length_range]
  intro i hi
  by_cases hmem : (i : Int) ∈ pos.strings
  · left
    refine ⟨hmem, List.indexOf (i : Int) pos.strings, ?_, ?_, ?_⟩
    · exact List.getElem?_indexOf hmem
    · intro k hk hcontra
      have hkl : k < pos.strings.length :=
        Nat.lt_of_lt_of_le hk (Nat.le_of_lt (List.indexOf_lt_length.2 hmem))
      have hfalse : ((pos.strings[k] == (i : Int)) = false) :=
        List.not_of_lt_findIdx hk
      rw [List.getElem?_eq_getElem hkl] at hcontra
      have : pos.strings[k] = (i : Int) := Option.some.inj hcontra
      simp [this] at hfalse
    · have hj : List.indexOf (i : Int) pos.strings < pos.placements.length := by
        have h1 := List.indexOf_lt_length.2 hmem
        simpa [NeckPosition.strings] using h1
      rw [hentry i hi, if_pos hmem, List.getElem?_eq_getElem hj,
        List.getD_eq_getElem?_getD, List.getElem?_eq_getElem hj,
        Option.getD_some]
  · right
    refine ⟨hmem, ?_⟩
    rw [hentry i hi, if_neg hmem]

/-- Witness for C2, at the spec's concrete example: strings `[0,2]`,
placements `[0, 203]`, expanded to 6 slots. -/
theorem C2_get_full_position_spec_witness :
    ((NeckPosition.mk [0, 203] [1, 2] none).get_full_position 6).placements.length
        = 6 ∧
    ((NeckPosition.mk [0, 203] [1, 2] none).get_full_position 6).fingers
        = [1, 2] ∧
    ((NeckPosition.mk [0, 203] [1, 2] none).get_full_position 6).placements
        = [0, -1, 203, -1, -1, -1] :=
  ⟨(C2_get_full_position_spec ⟨[0, 203], [1, 2], none⟩ 6).1,
   (C2_get_full_position_spec ⟨[0, 203], [1, 2], none⟩ 6).2.1,
   by decide⟩

/-- Claim C4: with non-empty fingers (maximum `m`), `shift` is a no-op when
`maxFinger` occurs among the fingers or `m + shiftAmount > maxFinger`, and
otherwise increments every positive finger by `shiftAmount`, keeping
non-positive fingers untouched. -/
theorem C4_shift_spec :
    ∀ (pos : NeckPosition) (shiftAmount maxFinger m : Int),
      pos.placements.length = pos.fingers.length →
      pos.fingers.max? = some m →
      ((maxFinger ∈ pos.fingers ∨ maxFinger < m + shiftAmount →
          pos.shift shiftAmount maxFinger = some pos) ∧
        (maxFinger ∉ pos.fingers → m + shiftAmount ≤ maxFinger →
          pos.shift shiftAmount maxFinger =
            some ⟨pos.placements,
              pos.fingers.map
                (fun g => if 0 < g then g + shiftAmount else g),
              pos.id⟩)) := by
  intro pos shiftAmount maxFinger m hlen hm
  constructor
  · intro hnoop
    by_cases hmem : maxFinger ∈ pos.fingers
    · simp [NeckPosition.shift, hmem]
    · have hlt : maxFinger < m + shiftAmount := hnoop.resolve_left hmem
      simp [NeckPosition.shift, hmem, hm, hlt]
  · intro hmem hle
    simp only [NeckPosition.shift, if_neg hmem, hm]
    rw [if_neg (by omega), hlen, shiftIndices_range]

/-- Witness for C4, at the spec's concrete examples: `shift(1, 4)` on fingers
`[1,2,0,3]` gives `[2,3,0,4]`, and on `[1,4,0,3]` is a no-op. -/
theorem C4_shift_spec_witness :
    NeckPosition.shift ⟨[0, 0, 0, 0], [1, 2, 0, 3], none⟩ 1 4 =
      some ⟨[0, 0, 0, 0], [2, 3, 0, 4], none⟩ ∧
    NeckPosition.shift ⟨[0, 0, 0, 0], [1, 4, 0, 3], none⟩ 1 4 =
      some ⟨[0, 0, 0, 0], [1, 4, 0, 3], none⟩ := by
  constructor
  · exact (C4_shift_spec ⟨[0, 0, 0, 0], [1, 2, 0, 3], none⟩ 1 4 3
      (by decide) (by decide)).2 (by decide) (by decide)
  · exact (C4_shift_spec ⟨[0, 0, 0, 0], [1, 4, 0, 3], none⟩ 1 4 4
      (by decide) (by decide)).1 (Or.inl (by decide))

/-- Claim C1, counterexample: starting from a position that satisfies the
length invariant (2 placements, 2 fingers), `get_full_position 6` returns a
position with 6 placements but still 2 fingers, breaking the invariant. -/
theorem C1_get_full_position_breaks_invariant :
    (NeckPosition.mk [0, 203] [1, 2] none).placements.length =
      (NeckPosition.mk [0, 203] [1, 2] none).fingers.length ∧
    ((NeckPosition.mk [0, 203] [1, 2] none).get_full_position 6).placements.length ≠
      ((NeckPosition.mk [0, 203] [1, 2] none).get_full_position 6).fingers.length := by
  decide

/-- Claim C1, amended: construction, `add_note`, `shift`, the three sorts and
`copy` all preserve the equal-length invariant of placements and fingers;
`get_full_position numFingers` yields equal lengths exactly when `numFingers`
equals the length of the input's fingers list. -/
theorem C1_length_invariant_amended :
    (∀ (placements fingers : List Int) (posId : Option Int),
      placements.length = fingers.length →
      (NeckPosition.mk placements fingers posId).placements.length =
        (NeckPosition.mk placements fingers posId).fingers.length) ∧
    (∀ (pos : NeckPosition) (string fret finger : Int),
      pos.placements.length = pos.fingers.length →
      (pos.add_note string fret finger).placements.length =
        (pos.add_note string fret finger).fingers.length) ∧
    (∀ (pos : NeckPosition) (shiftAmount maxFinger : Int) (q : NeckPosition),
      pos.placements.length = pos.fingers.length →
      pos.shift shiftAmount maxFinger = some q →
      q.placements.length = q.fingers.length) ∧
    (∀ (pos : NeckPosition) (reverse : Bool) (q : NeckPosition),
      pos.sort_by_string reverse = some q →
      q.placements.length = q.fingers.length) ∧
    (∀ (pos q : NeckPosition),
      pos.sort_by_fret = some q → q.placements.length = q.fingers.length) ∧
    (∀ (pos q : NeckPosition),
      pos.sort_by_finger = some q → q.placements.length = q.fingers.length) ∧
    (∀ pos : NeckPosition,
      pos.placements.length = pos.fingers.length →
      pos.copy.placements.length = pos.copy.fingers.length) ∧
    (∀ (pos : NeckPosition) (numFingers : Nat),
      (pos.get_full_position numFingers).placements.length =
          (pos.get_full_position numFingers).fingers.length ↔
        numFingers = pos.fingers.length) := by
  refine ⟨fun _ _ _ h => h, ?_, ?_, ?_, ?_, ?_, fun _ h => h, ?_⟩
  · intro pos string fret finger h
    simp only [NeckPosition.add_note, List.length_append, List.length_cons,
      List.length_nil]
    omega
  · intro pos shiftAmount maxFinger q hlen hq
    by_cases hmem : maxFinger ∈ pos.fingers
    · simp only [NeckPosition.shift, if_pos hmem] at hq
      cases Option.some.inj hq
      exact hlen
    · cases hmax : pos.fingers.max? with
      | none =>
        simp only [NeckPosition.shift, if_neg hmem, hmax] at hq
        exact Option.noConfusion hq
      | some m =>
        by_cases hlt : maxFinger < m + shiftAmount
        · simp only [NeckPosition.shift, if_neg hmem, hmax, if_pos hlt] at hq
          cases Option.some.inj hq
          exact hlen
        · simp only [NeckPosition.shift, if_neg hmem, hmax, if_neg hlt] at hq
          rw [hlen, shiftIndices_range] at hq
          cases Option.some.inj hq
          simp [hlen]
  · intro pos reverse q hq
    by_cases hp : pos.placements.zip pos.fingers = []
    · simp only [NeckPosition.sort_by_string, if_pos hp] at hq
      exact Option.noConfusion hq
    · simp only [NeckPosition.sort_by_string, if_neg hp] at hq
      cases Option.some.inj hq
      simp
  · intro pos q hq
    by_cases hp : pos.placements.zip pos.fingers = []
    · simp only [NeckPosition.sort_by_fret, if_pos hp] at hq
      exact Option.noConfusion hq
    · simp only [NeckPosition.sort_by_fret, if_neg hp] at hq
      cases Option.some.inj hq
      simp
  · intro pos q hq
    by_cases hp : pos.placements.zip pos.fingers = []
    · simp only [NeckPosition.sort_by_finger, if_pos hp] at hq
      exact Option.noConfusion hq
    · simp only [NeckPosition.sort_by_finger, if_neg hp] at hq
      cases Option.some.inj hq
      simp
  · intro pos numFingers
    simp only [NeckPosition.get_full_position, List.length_map,
      List.length_range]

/-- Witness for the amended C1: `add_note` and `shift` on concrete positions
with the invariant, and the `get_full_position` length criterion at a
concrete position. -/
theorem C1_length_invariant_amended_witness :
    ((NeckPosition.mk [0, 203] [1, 2] none).add_note 1 2 3).placements.length =
      ((NeckPosition.mk [0, 203] [1, 2] none).add_note 1 2 3).fingers.length ∧
    ((NeckPosition.mk [0, 0, 0] [1, 2, 3] none).copy).placements.length =
      ((NeckPosition.mk [0, 0, 0] [1, 2, 3] none).copy).fingers.length :=
  ⟨C1_length_invariant_amended.2.1 ⟨[0, 203], [1, 2], none⟩ 1 2 3 (by decide),
   C1_length_invariant_amended.2.2.2.2.2.2.1 ⟨[0, 0, 0], [1, 2, 3], none⟩
     (by decide)⟩

/-- Claim C6: for every `k` in `[0,127]`, converting `k` to a note name and
back yields `k` again. -/
theorem C6_note_number_round_trip :
    ∀ k : Nat, k ≤ 127 →
      (num2note (k : Int)).bind note2num = .ok (k : Int) := by decide

/-- Witness for C6 at `k = 127` (the name is `G10`). -/
theorem C6_note_number_round_trip_witness :
    (num2note ((127 : Nat) : Int)).bind note2num = .ok ((127 : Nat) : Int) :=
  C6_note_number_round_trip 127 (by decide)

/-- Claim C7: `note2num` reports out-of-range exactly when the number it
computes (letter offset + 12·octave + accidental) falls outside `[0,127]`,
and `num2note` reports out-of-range exactly when its input does; `G10` maps
to 127 while `G#10` and `C-1` fail out of range. -/
theorem C7_out_of_range_exactly :
    (∀ note : List Char,
      note2num note = .error .outOfRange ↔
        ∃ n : Int, computeNum note = some n ∧ (n < 0 ∨ 127 < n)) ∧
    (∀ num : Int, num2note num = .error .outOfRange ↔ (num < 0 ∨ 127 < num)) ∧
    note2num ['G', '1', '0'] = .ok 127 ∧
    note2num ['G', '#', '1', '0'] = .error .outOfRange ∧
    note2num ['C', '-', '1'] = .error .outOfRange := by
  refine ⟨?_, ?_, by decide, by decide, by decide⟩
  · intro note
    unfold note2num
    cases h : computeNum note with
    | none => simp
    | some n =>
      dsimp only
      by_cases hr : n < 0 ∨ 127 < n
      · rw [if_pos hr]
        exact ⟨fun _ => ⟨n, rfl, hr⟩, fun _ => rfl⟩
      · rw [if_neg hr]
        constructor
        · intro hcontra
          exact absurd hcontra (by simp)
        · rintro ⟨n', hn', hr'⟩
          cases Option.some.inj hn'
          exact absurd hr' hr
  · intro num
    unfold num2note
    by_cases hr : num < 0 ∨ 127 < num
    · rw [if_pos hr]
      simp [hr]
    · rw [if_neg hr]
      simp [hr]

/-- The comparison Python's `sorted` uses is transitive. -/
theorem keyLe_trans (key : Int × Int → Int) (r : Bool) :
    ∀ a b c, NeckPosition.keyLe key r a b = true →
      NeckPosition.keyLe key r b c = true →
      NeckPosition.keyLe key r a c = true := by
  intro a b c hab hbc
  cases r <;> simp [NeckPosition.keyLe] at hab hbc ⊢ <;> omega

/-- The comparison Python's `sorted` uses is total. -/
theorem keyLe_total (key : Int × Int → Int) (r : Bool) :
    ∀ a b, (NeckPosition.keyLe key r a b || NeckPosition.keyLe key r b a) = true := by
  intro a b
  cases r <;> simp [NeckPosition.keyLe] <;> omega

/-- The output of Python's `sorted` is sorted for its comparison. -/
theorem pySortPairs_sorted (pairs : List (Int × Int)) (key : Int × Int → Int)
    (r : Bool) :
    (NeckPosition.pySortPairs pairs key r).Pairwise
      (fun a b => NeckPosition.keyLe key r a b = true) :=
  List.sorted_mergeSort (keyLe_trans key r) (keyLe_total key r) pairs

/-- The output of Python's `sorted` is a permutation of its input. -/
theorem pySortPairs_perm (pairs : List (Int × Int)) (key : Int × Int → Int)
    (r : Bool) :
    (NeckPosition.pySortPairs pairs key r).Perm pairs :=
  List.mergeSort_perm pairs (NeckPosition.keyLe key r)

/-- Re-zipping the two projections of a pair list gives the list back. -/
theorem zip_of_proj (l : List (Int × Int)) :
    (l.map Prod.fst).zip (l.map Prod.snd) = l := by
  have h := List.zip_unzip l
  rwa [List.unzip_eq_map] at h

/-- A nonempty zip of a nonempty list of equal length. -/
theorem zip_ne_nil_of_lengths (placements fingers : List Int)
    (hlen : placements.length = fingers.length) (hne : placements ≠ []) :
    ¬ (placements.zip fingers = []) := by
  intro hc
  have h0 : (placements.zip fingers).length = 0 := by rw [hc]; rfl
  rw [List.length_zip] at h0
  have h1 : placements.length ≠ 0 := by
    intro h
    exact hne (List.eq_nil_of_length_eq_zero h)
  omega

/-- Claim C8: on a non-empty position, `sort_by_fret` returns a position with
non-decreasing frets and `sort_by_string(reverse=True)` one with
non-increasing strings; both preserve the multiset of (placement, finger)
pairs and the id of the input. -/
theorem C8_sort_by_fret_and_sort_by_string (pos : NeckPosition)
    (hlen : pos.placements.length = pos.fingers.length)
    (hne : pos.placements ≠ []) :
    (∃ q : NeckPosition, pos.sort_by_fret = some q ∧
      q.frets.Pairwise (fun a b => a ≤ b) ∧
      (q.placements.zip q.fingers).Perm (pos.placements.zip pos.fingers) ∧
      q.id = pos.id) ∧
    (∃ q : NeckPosition, pos.sort_by_string true = some q ∧
      q.strings.Pairwise (fun a b => b ≤ a) ∧
      (q.placements.zip q.fingers).Perm (pos.placements.zip pos.fingers) ∧
      q.id = pos.id) := by
  have hzip := zip_ne_nil_of_lengths pos.placements pos.fingers hlen hne
  constructor
  · refine ⟨⟨(NeckPosition.pySortPairs (pos.placements.zip pos.fingers)
        (fun x => x.1 % 100) false).map Prod.fst,
      (NeckPosition.pySortPairs (pos.placements.zip pos.fingers)
        (fun x => x.1 % 100) false).map Prod.snd, pos.id⟩, ?_, ?_, ?_, rfl⟩
    · simp only [NeckPosition.sort_by_fret, if_neg hzip]
    · have hs := pySortPairs_sorted (pos.placements.zip pos.fingers)
        (fun x => x.1 % 100) false
      dsimp only [NeckPosition.frets]
      rw [List.map_map, List.pairwise_map]
      exact hs.imp (fun h => by simpa [NeckPosition.keyLe] using h)
    · dsimp only
      rw [zip_of_proj]
      exact pySortPairs_perm (pos.placements.zip pos.fingers)
        (fun x => x.1 % 100) false
  · refine ⟨⟨(NeckPosition.pySortPairs (pos.placements.zip pos.fingers)
        (fun x => x.1) true).map Prod.fst,
      (NeckPosition.pySortPairs (pos.placements.zip pos.fingers)
        (fun x => x.1) true).map Prod.snd, pos.id⟩, ?_, ?_, ?_, rfl⟩
    · simp only [NeckPosition.sort_by_string, if_neg hzip]
    · have hs := pySortPairs_sorted (pos.placements.zip pos.fingers)
        (fun x => x.1) true
      dsimp only [NeckPosition.strings]
      rw [List.map_map, List.pairwise_map]
      refine hs.imp (fun {a b} h => ?_)
      have hle : b.1 ≤ a.1 := by simpa [NeckPosition.keyLe] using h
      exact Int.ediv_le_ediv (by decide) hle
    · dsimp only
      rw [zip_of_proj]
      exact pySortPairs_perm (pos.placements.zip pos.fingers)
        (fun x => x.1) true

/-- Witness for C8, at the concrete non-empty position with placements
`[101, 3, 202]`, fingers `[1, 2, 3]`. -/
theorem C8_sort_by_fret_and_sort_by_string_witness :
    (∃ q : NeckPosition,
      (NeckPosition.mk [101, 3, 202] [1, 2, 3] none).sort_by_fret = some q ∧
      q.frets.Pairwise (fun a b => a ≤ b) ∧
      (q.placements.zip q.fingers).Perm
        ((NeckPosition.mk [101, 3, 202] [1, 2, 3] none).placements.zip
          (NeckPosition.mk [101, 3, 202] [1, 2, 3] none).fingers) ∧
      q.id = (NeckPosition.mk [101, 3, 202] [1, 2, 3] none).id) ∧
    (∃ q : NeckPosition,
      (NeckPosition.mk [101, 3, 202] [1, 2, 3] none).sort_by_string true = some q ∧
      q.strings.Pairwise (fun a b => b ≤ a) ∧
      (q.placements.zip q.fingers).Perm
        ((NeckPosition.mk [101, 3, 202] [1, 2, 3] none).placements.zip
          (NeckPosition.mk [101, 3, 202] [1, 2, 3] none).fingers) ∧
      q.id = (NeckPosition.mk [101, 3, 202] [1, 2, 3] none).id) :=
  C8_sort_by_fret_and_sort_by_string ⟨[101, 3, 202], [1, 2, 3], none⟩
    (by decide) (by decide)

/-- Claim C3, counterexample: on placements `[101, 102]` (both on string 1)
with fingers `[1, 2]`, the implementation's sort by raw placement descending
reorders the two pairs, while the stable sort by the string component alone
keeps their original order — the two disagree. -/
theorem C3_sort_by_string_not_stable_by_string_component :
    NeckPosition.sort_by_string ⟨[101, 102], [1, 2], none⟩ true ≠
      sortByStringComponentSpec ⟨[101, 102], [1, 2], none⟩ := by
  have h1 : NeckPosition.sort_by_string ⟨[101, 102], [1, 2], none⟩ true =
      some ⟨[102, 101], [2, 1], none⟩ := by
    simp [NeckPosition.sort_by_string, NeckPosition.pySortPairs,
      NeckPosition.keyLe, List.mergeSort, List.splitInTwo, List.splitAt_eq,
      List.merge]
  have h2 : sortByStringComponentSpec ⟨[101, 102], [1, 2], none⟩ =
      some ⟨[101, 102], [1, 2], none⟩ := by
    simp [sortByStringComponentSpec, NeckPosition.pySortPairs,
      NeckPosition.keyLe, List.mergeSort, List.splitInTwo, List.splitAt_eq,
      List.merge]
  rw [h1, h2]
  decide

/-- Two sorted permutations of each other agree when the order relation is
antisymmetric on the elements involved. -/
theorem eq_of_perm_of_pairwise_of_antisymm {α : Type} {r : α → α → Prop} :
    ∀ {l1 l2 : List α}, l1.Perm l2 → l1.Pairwise r → l2.Pairwise r →
      (∀ a ∈ l1, ∀ b ∈ l1, r a b → r b a → a = b) → l1 = l2 := by
  intro l1
  induction l1 with
  | nil =>
    intro l2 hp _ _ _
    exact (hp.symm.eq_nil).symm
  | cons a t1 ih =>
    intro l2 hp hs1 hs2 hanti
    cases l2 with
    | nil => exact absurd hp.eq_nil (by simp)
    | cons b t2 =>
      by_cases hab : a = b
      · subst hab
        have ht : t1.Perm t2 := hp.cons_inv
        have h1 := (List.pairwise_cons.1 hs1).2
        have h2 := (List.pairwise_cons.1 hs2).2
        have hrec := ih ht h1 h2
          (fun x hx y hy => hanti x (List.mem_cons_of_mem a hx) y
            (List.mem_cons_of_mem a hy))
        rw [hrec]
      · exfalso
        have hbmem : b ∈ a :: t1 := hp.mem_iff.2 (List.mem_cons_self b t2)
        have hamem : a ∈ b :: t2 := hp.mem_iff.1 (List.mem_cons_self a t1)
        have hbt1 : b ∈ t1 := by
          rcases List.mem_cons.1 hbmem with h | h
          · exact absurd h.symm hab
          · exact h
        have hat2 : a ∈ t2 := by
          rcases List.mem_cons.1 hamem with h | h
          · exact absurd h hab
          · exact h
        have hrab : r a b := List.rel_of_pairwise_cons hs1 hbt1
        have hrba : r b a := List.rel_of_pairwise_cons hs2 hat2
        exact hab (hanti a (List.mem_cons_self a t1) b hbmem hrab hrba)

/-- Claim C3, amended: `sort_by_string(reverse=True)` stably sorts the pairs
by the raw placement value descending; when no two placements share a string
component — so ties by string can only be between equal pairs — this returns
exactly the stable sort by the string component alone. -/
theorem C3_sort_by_string_eq_spec_of_nodup_strings (pos : NeckPosition)
    (hlen : pos.placements.length = pos.fingers.length)
    (hne : pos.placements ≠ [])
    (hnd : pos.strings.Nodup) :
    pos.sort_by_string true = sortByStringComponentSpec pos := by
  have hzip := zip_ne_nil_of_lengths pos.placements pos.fingers hlen hne
  have key : NeckPosition.pySortPairs (pos.placements.zip pos.fingers)
        (fun x => x.1) true =
      NeckPosition.pySortPairs (pos.placements.zip pos.fingers)
        (fun x => x.1 / 100) true := by
    apply eq_of_perm_of_pairwise_of_antisymm
      (r := fun a b : Int × Int => b.1 / 100 ≤ a.1 / 100)
    · exact (pySortPairs_perm (pos.placements.zip pos.fingers)
        (fun x => x.1) true).trans
        (pySortPairs_perm (pos.placements.zip pos.fingers)
          (fun x => x.1 / 100) true).symm
    · refine (pySortPairs_sorted (pos.placements.zip pos.fingers)
        (fun x => x.1) true).imp (fun {a b} h => ?_)
      have hle : b.1 ≤ a.1 := by simpa [NeckPosition.keyLe] using h
      exact Int.ediv_le_ediv (by decide) hle
    · refine (pySortPairs_sorted (pos.placements.zip pos.fingers)
        (fun x => x.1 / 100) true).imp (fun {a b} h => ?_)
      simpa [NeckPosition.keyLe] using h
    · intro x hx y hy hxy hyx
      have hx' : x ∈ pos.placements.zip pos.fingers := List.mem_mergeSort.1 hx
      have hy' : y ∈ pos.placements.zip pos.fingers := List.mem_mergeSort.1 hy
      have hpp : (pos.placements.zip pos.fingers).Pairwise
          (fun u v : Int × Int => u.1 / 100 ≠ v.1 / 100) := by
        have h1 : (pos.placements.map (fun note => note / 100)).Nodup := hnd
        have h2 : pos.placements.Pairwise (fun u v => u / 100 ≠ v / 100) :=
          (List.pairwise_map).1 h1
        have h3 : ((pos.placements.zip pos.fingers).map Prod.fst) =
            pos.placements :=
          List.map_fst_zip pos.placements pos.fingers (le_of_eq hlen)
        have h4 : ((pos.placements.zip pos.fingers).map Prod.fst).Pairwise
            (fun u v => u / 100 ≠ v / 100) := by
          rw [h3]; exact h2
        exact List.Pairwise.of_map Prod.fst (fun a b h => h) h4
      by_cases hxyeq : x = y
      · exact hxyeq
      · have hsym : Symmetric (fun u v : Int × Int => u.1 / 100 ≠ v.1 / 100) :=
          fun u v h => h.symm
        exact absurd (le_antisymm hyx hxy) (hpp.forall hsym hx' hy' hxyeq)
  simp only [NeckPosition.sort_by_string, sortByStringComponentSpec,
    if_neg hzip, key]

/-- Witness for the amended C3, at a position whose strings `[1, 0, 3]` are
pairwise distinct. -/
theorem C3_sort_by_string_eq_spec_witness :
    NeckPosition.sort_by_string ⟨[101, 2, 305], [1, 2, 3], none⟩ true =
      sortByStringComponentSpec ⟨[101, 2, 305], [1, 2, 3], none⟩ :=
  C3_sort_by_string_eq_spec_of_nodup_strings ⟨[101, 2, 305], [1, 2, 3], none⟩
    (by decide) (by decide) (by decide)
